import Mathlib

/-!
Shallow embedding of the hartodb-go storage engine (Schema.go, Transaction.go,
Table.go, Cleanup.go, Query.go) and proofs about the claims of its
specification.

Modelling conventions:
* Go byte slices are `List ℕ` whose elements are below 256 by construction.
* Go `interface{}` field values are the tagged type `Value`; Go's dynamic
  types `int`, `int64`, `float64`, `string`, `bool` and the untyped `nil`
  are separate constructors, because Go type switches distinguish them.
* Go `float64` is modelled as `ℚ`.  Every float literal appearing in a
  theorem below is exactly representable as an IEEE-754 double, and every
  conversion evaluated by a theorem stays in the range where the Go
  conversions `uint64(f)` and `float64(u)` are exact, so the rational model
  agrees with IEEE semantics on all evaluated inputs.
* Go maps are association lists (first binding wins on lookup, in-place
  overwrite on update), which matches Go map semantics whenever, as in all
  code paths modelled here, iteration order is irrelevant or a single key
  is involved.
* Go panics (out-of-range slice indexing) are the distinguished outcome
  `Res.crashed`, kept separate from `error` returns, because the claims
  distinguish returning an error from crashing.
-/

set_option maxRecDepth 4000

namespace HartoDB

/-- Outcome of a Go computation: a normal value, a returned `error`,
or a runtime panic (out-of-range slice index). -/
inductive Res (α : Type) : Type
  | ok (a : α) : Res α
  | err (msg : String) : Res α
  | crashed : Res α
deriving DecidableEq, Repr

def Res.bind {α β : Type} : Res α → (α → Res β) → Res β
  | Res.ok a, f => f a
  | Res.err m, _ => Res.err m
  | Res.crashed, _ => Res.crashed

instance : Monad Res where
  pure := Res.ok
  bind := Res.bind

/-- A dynamically typed Go value (`interface{}`) as carried in
`Record.FieldsData`.  `vNil` is the untyped Go `nil`. -/
inductive Value : Type
  | vNil : Value
  | vInt (n : ℤ) : Value
  | vInt64 (n : ℤ) : Value
  | vFloat (q : ℚ) : Value
  | vStr (s : String) : Value
  | vBool (b : Bool) : Value
deriving DecidableEq, Repr

/-- Association-list lookup, first binding wins (Go map read). -/
def alistGet {α : Type} (l : List (String × α)) (k : String) : Option α :=
  match l with
  | [] => none
  | (k', v) :: rest => if k' = k then some v else alistGet rest k

/-- Association-list update: overwrite the first binding of `k`, or append
a new binding (Go map write). -/
def alistSet {α : Type} (l : List (String × α)) (k : String) (v : α) :
    List (String × α) :=
  match l with
  | [] => [(k, v)]
  | (k', v') :: rest =>
      if k' = k then (k', v) :: rest else (k', v') :: alistSet rest k v

/-- Association-list deletion of every binding of `k` (Go `delete`). -/
def alistDel {α : Type} (l : List (String × α)) (k : String) :
    List (String × α) :=
  l.filter (fun kv => decide (kv.1 ≠ k))

/-- `binary.LittleEndian.PutUint64`: the 8 little-endian bytes of
`n mod 2^64`. -/
def u64Bytes (n : ℕ) : List ℕ :=
  [n % 256, n / 256 % 256, n / 256 ^ 2 % 256, n / 256 ^ 3 % 256,
   n / 256 ^ 4 % 256, n / 256 ^ 5 % 256, n / 256 ^ 6 % 256, n / 256 ^ 7 % 256]

/-- `binary.LittleEndian.Uint64` on (at least) 8 bytes. -/
def bytesU64 (bs : List ℕ) : ℕ :=
  match bs with
  | b0 :: b1 :: b2 :: b3 :: b4 :: b5 :: b6 :: b7 :: _ =>
      b0 + b1 * 256 + b2 * 256 ^ 2 + b3 * 256 ^ 3 + b4 * 256 ^ 4 +
        b5 * 256 ^ 5 + b6 * 256 ^ 6 + b7 * 256 ^ 7
  | _ => 0

/-- Go `uint64(i)` for an `int64` value: two's-complement reduction. -/
def intU64 (i : ℤ) : ℕ := (i % (2 ^ 64 : ℤ)).toNat

/-- Go `int64(u)` for a `uint64` value: two's-complement reinterpretation. -/
def u64Int (n : ℕ) : ℤ :=
  if n < 2 ^ 63 then (n : ℤ) else (n : ℤ) - 2 ^ 64

/-- Go `uint64(f)` for a `float64`: truncation toward zero, written on the
rational's numerator and denominator (for a non-negative rational,
`num / den` in truncating integer division IS the truncation toward zero).
For negative or overflowing inputs the Go conversion is
implementation-defined; they are modelled as 0 and never evaluated by a
theorem below. -/
def floatU64 (q : ℚ) : ℕ :=
  if 0 ≤ q.num ∧ q.num / (q.den : ℤ) < 2 ^ 64 then (q.num / (q.den : ℤ)).toNat
  else 0

/-- Go `float64(u)` for a `uint64`: numeric conversion (exact below 2^53;
every value evaluated by a theorem below is far below that). -/
def u64Float (n : ℕ) : ℚ := (n : ℚ)

/-- The bytes of a Go string.  All strings evaluated by a theorem below are
ASCII, where Go's byte representation coincides with the character codes. -/
def strBytes (s : String) : List ℕ := s.data.map Char.toNat

/-- Go's bytewise `<` on strings, structurally on the character codes
(identical to byte order on the ASCII strings the theorems evaluate). -/
def strLtChars : List Char → List Char → Bool
  | [], [] => false
  | [], _ :: _ => true
  | _ :: _, [] => false
  | c :: cs, d :: ds =>
      if c.toNat < d.toNat then true
      else if d.toNat < c.toNat then false
      else strLtChars cs ds

/-- Go `a < b` on strings. -/
def strLt (a b : String) : Bool := strLtChars a.data b.data

/-- `RecordMetadata` of Record.go. -/
structure RecordMetadata : Type where
  isCurrent : Bool
  isDeleted : Bool
  isLocked : Bool
  transactionId : ℕ
deriving DecidableEq, Repr

/-- `FieldMetadata` of Record.go. -/
structure FieldMetadata : Type where
  isNull : Bool
deriving DecidableEq, Repr

/-- `Field` of Table.go; `type` is the Go string tag ("string", "int",
"float", "bool", "timeID", "ref"). -/
structure Field : Type where
  name : String
  type : String
  length : ℕ
deriving DecidableEq, Repr

/-- `Record` of Record.go (the `sync.Mutex` carries no data and is
omitted). -/
structure Record : Type where
  id : ℤ
  metadata : RecordMetadata
  fieldsData : List (String × Value)
  fieldsMeta : List (String × FieldMetadata)
  refOffsets : List (String × (ℤ × ℤ))
deriving DecidableEq, Repr

/-- `NewRecord` of Record.go: default metadata is
`IsCurrent=true, IsDeleted=false, IsLocked=false, TransactionID=0`;
the id is mirrored into `FieldsData["id"]`; each datum's null flag is set
iff the value is the Go `nil`. -/
def newRecord (id : ℤ) (data : List (String × Value)) : Record :=
  let base : Record :=
    { id := id
      metadata :=
        { isCurrent := true, isDeleted := false, isLocked := false,
          transactionId := 0 }
      fieldsData := [("id", Value.vInt64 id)]
      fieldsMeta := [("id", { isNull := false })]
      refOffsets := [] }
  data.foldl
    (fun r kv =>
      { r with
        fieldsData := alistSet r.fieldsData kv.1 kv.2
        fieldsMeta :=
          alistSet r.fieldsMeta kv.1 { isNull := kv.2 = Value.vNil } })
    base

/-- `Record.Lock` of Record.go, returning the post-state and, on conflict,
the holding transaction's id.  The lock fails iff the record is locked by a
different transaction, and then nothing is mutated. -/
def Record.lock (r : Record) (txId : ℕ) : Record × Option ℕ :=
  if r.metadata.isLocked ∧ r.metadata.transactionId ≠ txId then
    (r, some r.metadata.transactionId)
  else
    ({ r with
        metadata :=
          { r.metadata with isLocked := true, transactionId := txId } },
     none)

/-- `Record.Unlock` of Record.go. -/
def Record.unlock (r : Record) : Record :=
  { r with
      metadata := { r.metadata with isLocked := false, transactionId := 0 } }

/-- `Record.Clone` of Record.go: fails (with the holder's id) when the
source is locked by a different transaction; otherwise yields a record with
the fresh id `newId` (`time.Now().UnixNano()` in the source, passed here as
a parameter), the same data, `IsCurrent=false`, `IsDeleted` copied,
`IsLocked=true` and this transaction's id. -/
def Record.clone (r : Record) (txId : ℕ) (newId : ℤ) : Except ℕ Record :=
  if r.metadata.isLocked ∧ r.metadata.transactionId ≠ txId then
    Except.error r.metadata.transactionId
  else
    Except.ok
      { id := newId
        metadata :=
          { isCurrent := false, isDeleted := r.metadata.isDeleted,
            isLocked := true, transactionId := txId }
        fieldsData :=
          alistSet r.fieldsData "id" (Value.vInt64 newId)
        fieldsMeta := alistSet r.fieldsMeta "id" { isNull := false }
        refOffsets := r.refOffsets }

/-- The on-disk record size computed by `Record.Serialize` and
`Table.GetAllRecords`: 12 bytes of header plus `length + 1` per non-id
field. -/
def recordSize (fields : List Field) : ℕ :=
  12 + (fields.foldl
    (fun acc f => if f.name = "id" then acc else acc + f.length + 1) 0)

/-- Payload bytes written by `Record.Serialize` for one non-null field.
`PutUint64` into a cell shorter than 8 bytes (16 for the two ref offsets)
would panic in Go; table creation validates the relevant lengths so the
crash branches are unreachable in the repository. -/
def serializeField (f : Field) (value : Value)
    (refOffsets : List (String × (ℤ × ℤ))) : Res (List ℕ) :=
  match f.type with
  | "timeID" =>
      match value with
      | Value.vInt64 v =>
          if f.length < 8 then Res.crashed
          else Res.ok (u64Bytes (intU64 v) ++ List.replicate (f.length - 8) 0)
      | _ => Res.err ("field " ++ f.name ++ " requires an int64 value")
  | "int" =>
      match value with
      | Value.vInt v =>
          if f.length < 8 then Res.crashed
          else Res.ok (u64Bytes (intU64 v) ++ List.replicate (f.length - 8) 0)
      | Value.vInt64 v =>
          if f.length < 8 then Res.crashed
          else Res.ok (u64Bytes (intU64 v) ++ List.replicate (f.length - 8) 0)
      | _ => Res.err ("field " ++ f.name ++ " requires an int or int64 value")
  | "float" =>
      match value with
      | Value.vFloat v =>
          if f.length < 8 then Res.crashed
          else Res.ok (u64Bytes (floatU64 v) ++ List.replicate (f.length - 8) 0)
      | _ => Res.err ("field " ++ f.name ++ " requires a float64 value")
  | "string" =>
      match value with
      | Value.vStr s =>
          let copied := (strBytes s).take f.length
          Res.ok (copied ++ List.replicate (f.length - copied.length) 0)
      | _ => Res.err ("field " ++ f.name ++ " requires a string value")
  | "ref" =>
      match alistGet refOffsets f.name with
      | none => Res.err ("missing ref offsets for field " ++ f.name)
      | some off =>
          if f.length < 16 then Res.crashed
          else
            Res.ok (u64Bytes (intU64 off.1) ++ u64Bytes (intU64 off.2) ++
              List.replicate (f.length - 16) 0)
  | _ => Res.err ("unsupported field type " ++ f.type)

/-- `Record.Serialize` of Record.go: 8 bytes of id, 1 metadata flag byte
(bit 0 current, bit 1 deleted, bit 2 locked), 3 little-endian bytes of
transaction id, then per non-id field one null-flag byte and the payload
cell (zeros when the field is null or its value is absent). -/
def serializeRecord (r : Record) (fields : List Field) : Res (List ℕ) :=
  let metaByte :=
    (if r.metadata.isCurrent then 1 else 0) +
    (if r.metadata.isDeleted then 2 else 0) +
    (if r.metadata.isLocked then 4 else 0)
  let txBytes :=
    [r.metadata.transactionId % 256,
     r.metadata.transactionId / 256 % 256,
     r.metadata.transactionId / 65536 % 256]
  let header := u64Bytes (intU64 r.id) ++ [metaByte] ++ txBytes
  let rec go (fs : List Field) : Res (List ℕ) :=
    match fs with
    | [] => Res.ok []
    | f :: rest =>
        if f.name = "id" then go rest
        else
          let fieldMeta := (alistGet r.fieldsMeta f.name).getD { isNull := true }
          let flag := if fieldMeta.isNull then 1 else 0
          let payload : Res (List ℕ) :=
            match alistGet r.fieldsData f.name with
            | none => Res.ok (List.replicate f.length 0)
            | some value =>
                if fieldMeta.isNull then Res.ok (List.replicate f.length 0)
                else serializeField f value r.refOffsets
          Res.bind payload (fun p =>
            Res.bind (go rest) (fun restBytes =>
              Res.ok (flag :: p ++ restBytes)))
  Res.bind (go fields) (fun body => Res.ok (header ++ body))

/-- One field-payload read of `DeserializeRecord`.  Go slices
`data[offset : offset+length]` (and reads 8 or 16 bytes inside the slice);
an out-of-range slice bound is a panic, modelled as `Res.crashed`. -/
def deserializeField (data : List ℕ) (offset : ℕ) (f : Field) :
    Res (Option Value × Option (ℤ × ℤ)) :=
  match f.type with
  | "timeID" =>
      if offset + f.length ≤ data.length ∧ 8 ≤ f.length then
        Res.ok (some (Value.vInt64 (u64Int (bytesU64 (data.drop offset)))), none)
      else Res.crashed
  | "int" =>
      if offset + f.length ≤ data.length ∧ 8 ≤ f.length then
        Res.ok (some (Value.vInt64 (u64Int (bytesU64 (data.drop offset)))), none)
      else Res.crashed
  | "float" =>
      if offset + f.length ≤ data.length ∧ 8 ≤ f.length then
        Res.ok (some (Value.vFloat (u64Float (bytesU64 (data.drop offset)))), none)
      else Res.crashed
  | "string" =>
      if offset + f.length ≤ data.length then
        Res.ok (some (Value.vStr
          (String.mk (((data.drop offset).take f.length).map Char.ofNat))), none)
      else Res.crashed
  | "ref" =>
      if offset + 16 ≤ data.length ∧ 16 ≤ f.length then
        Res.ok (none,
          some (u64Int (bytesU64 (data.drop offset)),
                u64Int (bytesU64 (data.drop (offset + 8)))))
      else Res.crashed
  | _ => Res.ok (none, none)

/-- `DeserializeRecord` of Record.go.  The ONLY length guard in the source
is `len(data) < 12`; reading any field beyond the end of a longer-but-still
-short buffer panics (`Res.crashed`).  Unknown field types are silently
skipped (the Go switch has no default case). -/
def deserializeRecord (data : List ℕ) (fields : List Field) : Res Record :=
  if data.length < 12 then Res.err "data too short to be a valid record"
  else
    let id := u64Int (bytesU64 data)
    let metaByte := data.getD 8 0
    let txId := data.getD 9 0 + data.getD 10 0 * 256 + data.getD 11 0 * 65536
    let base : Record :=
      { id := id
        metadata :=
          { isCurrent := metaByte % 2 = 1
            isDeleted := metaByte / 2 % 2 = 1
            isLocked := metaByte / 4 % 2 = 1
            transactionId := txId }
        fieldsData := []
        fieldsMeta := []
        refOffsets := [] }
    let rec go (fs : List Field) (offset : ℕ) (r : Record) : Res Record :=
      match fs with
      | [] => Res.ok r
      | f :: rest =>
          if f.name = "id" then
            go rest offset
              { r with
                fieldsData := alistSet r.fieldsData "id" (Value.vInt64 r.id)
                fieldsMeta := alistSet r.fieldsMeta "id" { isNull := false } }
          else if offset < data.length then
            let isNull := data.getD offset 0 = 1
            let r1 :=
              { r with
                fieldsMeta := alistSet r.fieldsMeta f.name { isNull := isNull } }
            if isNull then go rest (offset + 1 + f.length) r1
            else
              Res.bind (deserializeField data (offset + 1) f) (fun dv =>
                let r2 :=
                  match dv.1 with
                  | some v =>
                      { r1 with fieldsData := alistSet r1.fieldsData f.name v }
                  | none => r1
                let r3 :=
                  match dv.2 with
                  | some off =>
                      { r2 with refOffsets := alistSet r2.refOffsets f.name off }
                  | none => r2
                go rest (offset + 1 + f.length) r3)
          else Res.crashed
    go fields 12 base

/-- `Table.GetAllRecords`, decoding step: the file is cut into chunks of
`recordSize` and each chunk decoded; a trailing partial record is dropped
(integer division). -/
def decodeChunks (data : List ℕ) (fields : List Field) : Res (List Record) :=
  let sz := recordSize fields
  let rec go (n : ℕ) (bs : List ℕ) : Res (List Record) :=
    match n with
    | 0 => Res.ok []
    | n + 1 =>
        Res.bind (deserializeRecord (bs.take sz) fields) (fun r =>
          Res.bind (go n (bs.drop sz)) (fun rest => Res.ok (r :: rest)))
  go (data.length / sz) data

/-- `Record.WriteRefData` of Record.go: append the payload to the sidecar
and record `[previous length, previous length + payload length)`. -/
def writeRefData (r : Record) (fieldName : String) (value : String)
    (sidecar : List ℕ) : Record × List ℕ :=
  let start : ℤ := sidecar.length
  ({ r with
      refOffsets :=
        alistSet r.refOffsets fieldName (start, start + (strBytes value).length) },
   sidecar ++ strBytes value)

/-- The per-field ref handling of `Transaction.StageInsert`: a present,
non-nil value of a ref field must be a string and is appended to that
field's sidecar; other fields are left to `NewRecord`. -/
def stageInsertRefStep (data : List (String × Value))
    (rs : Record × List (String × List ℕ)) (f : Field) :
    Res (Record × List (String × List ℕ)) :=
  if f.type = "ref" then
    match alistGet data f.name with
    | none => Res.ok rs
    | some Value.vNil => Res.ok rs
    | some (Value.vStr s) =>
        let file := (alistGet rs.2 f.name).getD []
        let (r', file') := writeRefData rs.1 f.name s file
        Res.ok (r', alistSet rs.2 f.name file')
    | some _ => Res.err ("field " ++ f.name ++ " requires a string value")
  else Res.ok rs

/-- `Transaction.StageInsert` of Transaction.go for one table: build a
`NewRecord` (whose default metadata has `IsCurrent=true`), mark it locked
by this transaction, and append every present non-nil ref payload to that
field's sidecar.  `newId` stands for
`time.Now().UnixNano() + atomic.AddInt64(&recordIDCounter, 1)`.
Sidecars are an association list from field name to file bytes. -/
def stageInsert (fields : List Field) (newId : ℤ) (txId : ℕ)
    (data : List (String × Value)) (sidecars : List (String × List ℕ)) :
    Res (Record × List (String × List ℕ)) :=
  let record0 := newRecord newId data
  let record1 :=
    { record0 with
        metadata :=
          { record0.metadata with isLocked := true, transactionId := txId } }
  fields.foldl
    (fun acc f => Res.bind acc (fun rs => stageInsertRefStep data rs f))
    (Res.ok (record1, sidecars))

/-- One entry of the `updates` map of `Transaction.StageUpdate`;
`Value.vNil` is the Go `nil` that clears the field. -/
def applyUpdate (fields : List Field) (tableName : String)
    (st : Record × List (String × List ℕ)) (field : String) (value : Value) :
    Res (Record × List (String × List ℕ)) :=
  match fields.find? (fun f => f.name = field) with
  | none =>
      Res.err ("field " ++ field ++ " does not exist in table " ++ tableName)
  | some fieldDef =>
      if fieldDef.type = "ref" then
        match value with
        | Value.vNil =>
            Res.ok
              ({ st.1 with
                  fieldsMeta := alistSet st.1.fieldsMeta field { isNull := true }
                  fieldsData := alistDel st.1.fieldsData field
                  refOffsets := alistDel st.1.refOffsets field },
               st.2)
        | Value.vStr s =>
            let file := (alistGet st.2 field).getD []
            let (r', file') := writeRefData st.1 field s file
            Res.ok
              ({ r' with
                  fieldsData := alistSet r'.fieldsData field (Value.vStr s)
                  fieldsMeta := alistSet r'.fieldsMeta field { isNull := false } },
               alistSet st.2 field file')
        | _ => Res.err ("field " ++ field ++ " requires a string value")
      else
        match value with
        | Value.vNil =>
            Res.ok
              ({ st.1 with
                  fieldsMeta := alistSet st.1.fieldsMeta field { isNull := true }
                  fieldsData := alistDel st.1.fieldsData field },
               st.2)
        | v =>
            Res.ok
              ({ st.1 with
                  fieldsData := alistSet st.1.fieldsData field v
                  fieldsMeta := alistSet st.1.fieldsMeta field { isNull := false } },
               st.2)

/-- `Transaction.StageUpdate` of Transaction.go for one record: lock the
source record, clone it (fresh id `newId`), then apply the updates
entry by entry.  Returns the post-state of the source record, the staged
clone and the sidecars.  The lock failure carries the holder's id in the
message, as in the source. -/
def stageUpdate (fields : List Field) (tableName : String)
    (record : Record) (updates : List (String × Value)) (txId : ℕ)
    (newId : ℤ) (sidecars : List (String × List ℕ)) :
    Res (Record × Record × List (String × List ℕ)) :=
  let (locked, lockErr) := record.lock txId
  match lockErr with
  | some holder =>
      Res.err ("record is locked by another transaction: " ++ toString holder)
  | none =>
      match locked.clone txId newId with
      | Except.error holder =>
          Res.err ("record is locked by another transaction: " ++ toString holder)
      | Except.ok staging =>
          Res.bind
            (updates.foldl
              (fun acc kv =>
                Res.bind acc (fun st =>
                  applyUpdate fields tableName st kv.1 kv.2))
              (Res.ok (staging, sidecars)))
            (fun st => Res.ok (locked, st.1, st.2))

/-- `Transaction.StageDelete` of Transaction.go for one record: lock,
clone, and mark the clone deleted. -/
def stageDelete (record : Record) (txId : ℕ) (newId : ℤ) :
    Res (Record × Record) :=
  let (locked, lockErr) := record.lock txId
  match lockErr with
  | some holder =>
      Res.err ("record is locked by another transaction: " ++ toString holder)
  | none =>
      match locked.clone txId newId with
      | Except.error holder =>
          Res.err ("record is locked by another transaction: " ++ toString holder)
      | Except.ok staging =>
          Res.ok (locked,
            { staging with
                metadata := { staging.metadata with isDeleted := true } })

/-- The per-table core of `Transaction.Commit`: demote every existing
record whose `FieldsData["id"]` equals a staged record's
`FieldsData["id"]` when that staged record is not marked deleted; then mark
every staged record current and unlocked; finally write
`existing ++ staged` in that order. -/
def commitTable (existing staged : List Record) : List Record :=
  let existing2 :=
    existing.map (fun e =>
      if staged.any (fun s =>
          alistGet s.fieldsData "id" = alistGet e.fieldsData "id" ∧
            ¬s.metadata.isDeleted) then
        { e with metadata := { e.metadata with isCurrent := false } }
      else e)
  let staged2 :=
    staged.map (fun s =>
      { s with
          metadata :=
            { s.metadata with
                isCurrent := true, isLocked := false, transactionId := 0 } })
  existing2 ++ staged2

/-- `GetCurrentRecords` / the current-record filter used by the query
evaluator and the cleanup worker: `IsCurrent ∧ ¬IsDeleted`. -/
def currentRecords (records : List Record) : List Record :=
  records.filter (fun r => r.metadata.isCurrent && !r.metadata.isDeleted)

/-- `equals` of Query.go.  The Go type switch has cases for `string`,
`int`, `float64` and `bool` only: an `int64` operand (the type every
numeric field has after deserialization) matches no case and the function
returns false. -/
def equals (a b : Value) : Bool :=
  match a with
  | Value.vStr s =>
      match b with
      | Value.vStr t => s = t
      | _ => false
  | Value.vInt n =>
      match b with
      | Value.vInt m => n = m
      | Value.vFloat q => (n : ℚ) = q
      | _ => false
  | Value.vFloat q =>
      match b with
      | Value.vFloat p => q = p
      | Value.vInt m => q = (m : ℚ)
      | _ => false
  | Value.vBool x =>
      match b with
      | Value.vBool y => x = y
      | _ => false
  | _ => false

/-- `greaterThan` of Query.go (cases for `string`, `int`, `float64`;
everything else — including `int64` — returns false). -/
def greaterThan (a b : Value) : Bool :=
  match a with
  | Value.vStr s =>
      match b with
      | Value.vStr t => strLt t s
      | _ => false
  | Value.vInt n =>
      match b with
      | Value.vInt m => m < n
      | Value.vFloat q => q < (n : ℚ)
      | _ => false
  | Value.vFloat q =>
      match b with
      | Value.vFloat p => p < q
      | Value.vInt m => (m : ℚ) < q
      | _ => false
  | _ => false

/-- `lessThan` of Query.go. -/
def lessThan (a b : Value) : Bool :=
  match a with
  | Value.vStr s =>
      match b with
      | Value.vStr t => strLt s t
      | _ => false
  | Value.vInt n =>
      match b with
      | Value.vInt m => n < m
      | Value.vFloat q => (n : ℚ) < q
      | _ => false
  | Value.vFloat q =>
      match b with
      | Value.vFloat p => q < p
      | Value.vInt m => q < (m : ℚ)
      | _ => false
  | _ => false

/-- `greaterThanOrEqual` of Query.go. -/
def greaterThanOrEqual (a b : Value) : Bool := greaterThan a b || equals a b

/-- `lessThanOrEqual` of Query.go. -/
def lessThanOrEqual (a b : Value) : Bool := lessThan a b || equals a b

/-- `FilterCondition` of Query.go. -/
structure FilterCondition : Type where
  field : String
  operator : String
  value : Value
deriving DecidableEq, Repr

/-- `matchesConditions` of Query.go: conjunctive; a field absent from the
record, an unsupported operator, or a false comparison rejects the
record. -/
def matchesConditions (record : Record) (conditions : List FilterCondition) :
    Bool :=
  conditions.all (fun c =>
    match alistGet record.fieldsData c.field with
    | none => false
    | some fieldValue =>
        match c.operator with
        | "=" => equals fieldValue c.value
        | "!=" => !equals fieldValue c.value
        | ">" => greaterThan fieldValue c.value
        | ">=" => greaterThanOrEqual fieldValue c.value
        | "<" => lessThan fieldValue c.value
        | "<=" => lessThanOrEqual fieldValue c.value
        | _ => false)

/-- Go `fmt.Sprintf("%v", v)` as used by `sortRecords`' default branch.
The proofs below rely only on equal inputs formatting equally and on the
concrete outputs for `int64` and `bool` values. -/
def goFormat (v : Value) : String :=
  match v with
  | Value.vNil => "<nil>"
  | Value.vInt n => toString n
  | Value.vInt64 n => toString n
  | Value.vFloat q => toString q
  | Value.vStr s => s
  | Value.vBool b => cond b "true" "false"

/-- The comparison closure of `sortRecords` in Query.go.  Records missing
the sort field are handled before the descending inversion (`!result`),
so they are ordered last in both directions; the type switch on the first
value has cases `string`, `int`, `float64`, and a default branch that
compares `fmt.Sprintf("%v", ·)` strings — `int64` sort keys take the
default branch.  A failed inner type assertion yields the Go zero value. -/
def sortLess (field : String) (ascending : Bool) (ri rj : Record) : Bool :=
  match alistGet ri.fieldsData field, alistGet rj.fieldsData field with
  | none, none => false
  | none, some _ => false
  | some _, none => true
  | some valI, some valJ =>
      let result : Bool :=
        match valI with
        | Value.vStr sI =>
            let sJ := match valJ with | Value.vStr t => t | _ => ""
            strLt sI sJ
        | Value.vInt nI =>
            let nJ := match valJ with | Value.vInt m => m | _ => 0
            nI < nJ
        | Value.vFloat qI =>
            let qJ := match valJ with | Value.vFloat p => p | _ => 0
            qI < qJ
        | _ => strLt (goFormat valI) (goFormat valJ)
      if ascending then result else !result

/-- The inner loop of Go's `insertionSort`: the new element `x` moves left
past each neighbour `e` while `less x e`, then stops.  The accumulator is
kept in reverse order (most recently placed element first). -/
def bubble {α : Type} (less : α → α → Bool) (x : α) : List α → List α
  | [] => [x]
  | e :: rest => if less x e then e :: bubble less x rest else x :: e :: rest

/-- Go's `insertionSort`, the inner routine of the `sort` package:
`sort.Slice` runs exactly this algorithm on every range of at most 12
elements (`maxInsertion` in the Go sources), and nothing else on such
ranges.  It does NOT stand for `sort.Slice` on longer slices. -/
def insertionSortGo {α : Type} (less : α → α → Bool) (l : List α) : List α :=
  (l.foldl (fun acc x => bubble less x acc) []).reverse

/-- `sortRecords` of Query.go, i.e. `sort.Slice` driven by `sortLess`.
On a slice of at most 12 records `sort.Slice` runs Go's `insertionSort`;
on longer slices it runs an unstable pattern-defeating quicksort whose
output under this comparator (not a strict weak order) is unspecified.
The quicksort case is deliberately left unmodelled: it is the `longSort`
parameter, and every theorem below either quantifies over `longSort` or
carries the `length ≤ 12` bound of the insertion-sort regime, so nothing
is assumed about the unmodelled case. -/
def sortRecords
    (longSort : (Record → Record → Bool) → List Record → List Record)
    (records : List Record) (field : String) (ascending : Bool) :
    List Record :=
  if records.length ≤ 12 then
    insertionSortGo (sortLess field ascending) records
  else longSort (sortLess field ascending) records

/-- A concrete stand-in for the unmodelled long-slice branch of
`sortRecords`, used only to close statements whose record lists are within
the insertion-sort regime, where the branch is never taken. -/
def anyLongSort : (Record → Record → Bool) → List Record → List Record :=
  fun _ l => l

/-- `Query.GetAll` of Query.go: keep current records, apply the
conjunctive filters, sort when a sort field is set, truncate when a
positive limit is set.  `longSort` is the unmodelled long-slice branch of
`sortRecords` (see there). -/
def queryGetAll
    (longSort : (Record → Record → Bool) → List Record → List Record)
    (records : List Record) (conditions : List FilterCondition)
    (sortField : String) (sortAscending : Bool) (limitCount : ℤ) :
    List Record :=
  let current := currentRecords records
  let filtered :=
    if 0 < conditions.length then
      current.filter (fun r => matchesConditions r conditions)
    else current
  let sorted :=
    if sortField ≠ "" then
      sortRecords longSort filtered sortField sortAscending
    else filtered
  if 0 < limitCount ∧ limitCount < (sorted.length : ℤ) then
    sorted.take limitCount.toNat
  else sorted

/-- State threaded through the record loop of `CleanupWorker.cleanupRefField`:
the `old range → new range` map, the running output offset, and the bytes
written to the temporary sidecar so far. -/
structure RefCleanupState : Type where
  offsetMap : List ((ℤ × ℤ) × (ℤ × ℤ))
  currentOffset : ℤ
  out : List ℕ
deriving DecidableEq, Repr

/-- Lookup in the `old range → new range` map. -/
def rangeGet (m : List ((ℤ × ℤ) × (ℤ × ℤ))) (k : ℤ × ℤ) : Option (ℤ × ℤ) :=
  match m with
  | [] => none
  | (k', v) :: rest => if k' = k then some v else rangeGet rest k

/-- Go `refData[start:end]` for int64 offsets already checked to satisfy
`0 ≤ start ≤ end ≤ len(refData)`. -/
def sliceBytes (data : List ℕ) (start finish : ℤ) : List ℕ :=
  (data.drop start.toNat).take (finish - start).toNat

/-- The record loop of `CleanupWorker.cleanupRefField`: for each record
referencing the field, either rebind its offsets to an already-copied
range, or copy the bytes to the new sidecar at the running offset and
remember the mapping; statically invalid offsets are skipped (the record
keeps its old offsets). -/
def refCleanupLoop (refData : List ℕ) (fieldName : String) :
    List Record → RefCleanupState → List Record × RefCleanupState
  | [], st => ([], st)
  | r :: rest, st =>
      match alistGet r.refOffsets fieldName with
      | none =>
          let (rs, st') := refCleanupLoop refData fieldName rest st
          (r :: rs, st')
      | some off =>
          match rangeGet st.offsetMap off with
          | some newOff =>
              let r' :=
                { r with refOffsets := alistSet r.refOffsets fieldName newOff }
              let (rs, st') := refCleanupLoop refData fieldName rest st
              (r' :: rs, st')
          | none =>
              if off.1 < 0 ∨ (refData.length : ℤ) < off.2 ∨ off.2 < off.1 then
                let (rs, st') := refCleanupLoop refData fieldName rest st
                (r :: rs, st')
              else
                let data := sliceBytes refData off.1 off.2
                let newStart := st.currentOffset
                let newEnd := newStart + (data.length : ℤ)
                let r' :=
                  { r with
                      refOffsets :=
                        alistSet r.refOffsets fieldName (newStart, newEnd) }
                let st' : RefCleanupState :=
                  { offsetMap := st.offsetMap ++ [(off, (newStart, newEnd))]
                    currentOffset := newEnd
                    out := st.out ++ data }
                let (rs, st'') := refCleanupLoop refData fieldName rest st'
                (r' :: rs, st'')

/-- `CleanupWorker.cleanupRefField`: when no retained record references the
field the sidecar is left alone (`none`); otherwise the loop above runs and
the temporary file replaces the sidecar.  Returns the updated in-memory
records and the new sidecar bytes. -/
def cleanupRefField (refData : List ℕ) (fieldName : String)
    (records : List Record) : Option (List Record × List ℕ) :=
  if records.all (fun r => (alistGet r.refOffsets fieldName).isNone) then
    none
  else
    let (rs, st) :=
      refCleanupLoop refData fieldName records
        { offsetMap := [], currentOffset := 0, out := [] }
    some (rs, st.out)

/-- `CleanupWorker.cleanupTable` for a table with one ref field
`refFieldName`: retain the current, non-deleted records; skip when nothing
was filtered out; otherwise FIRST serialize the retained records (with
their old ref offsets) into the replacement table file, and only THEN run
the ref-field cleanup, which rewrites the sidecar and the in-memory
offsets.  Returns `none` for the skip case and otherwise the table file
bytes as written, the final sidecar bytes, and the in-memory records after
offset rewriting. -/
def cleanupTable (fields : List Field) (refFieldName : String)
    (records : List Record) (refData : List ℕ) :
    Res (Option (List ℕ × List ℕ × List Record)) :=
  let current := currentRecords records
  if current.length = records.length then Res.ok none
  else
    Res.bind
      (current.foldr
        (fun r acc =>
          Res.bind (serializeRecord r fields) (fun bs =>
            Res.bind acc (fun rest => Res.ok (bs ++ rest))))
        (Res.ok []))
      (fun tableBytes =>
        match cleanupRefField refData refFieldName current with
        | none => Res.ok (some (tableBytes, refData, current))
        | some (rs, newRef) => Res.ok (some (tableBytes, newRef, rs)))

/-- An abstract file system, standing for the directory tree under the
data root: which paths exist, the parsed content of table configuration
files, and the raw bytes of data files. -/
structure FSModel : Type where
  pathExists : String → Bool
  tableConfig : String → Option (String × List Field)
  fileBytes : String → Option (List ℕ)

/-- `Table` of Table.go (constraints carry no behaviour in the modelled
paths and are omitted from `Field`). -/
structure Table : Type where
  tableName : String
  fields : List Field
  schemaPath : String
deriving DecidableEq, Repr

/-- Go `strings.Split` with a one-character separator, structurally on the
character list. -/
def splitChars (sep : Char) : List Char → List (List Char)
  | [] => [[]]
  | c :: rest =>
      if c = sep then [] :: splitChars sep rest
      else
        match splitChars sep rest with
        | g :: gs => (c :: g) :: gs
        | [] => [[c]]

/-- The name-resolution step of `GetTable` in Table.go: a qualified
`"schema:table"` name is split at the colon; a bare name is resolved
against the hardcoded default schema `"testSchema"`. -/
def splitTableName (tableName : String) : String × String :=
  match (splitChars ':' tableName.data).map (fun cs => String.mk cs) with
  | a :: b :: _ => (a, b)
  | _ => ("testSchema", tableName)

/-- `GetTable` of Table.go: resolve the name, require the schema directory
and the configuration file to exist, parse the configuration, and hydrate
the table with its schema path. -/
def getTable (fs : FSModel) (tableName mainPath : String) :
    Except String Table :=
  let parts := splitTableName tableName
  let schemaPath := mainPath ++ "/" ++ parts.1
  let confPath := schemaPath ++ "/" ++ parts.2 ++ ".conf.htdb"
  if fs.pathExists schemaPath = false then
    Except.error ("schema " ++ parts.1 ++ " does not exist")
  else if fs.pathExists confPath = false then
    Except.error
      ("table " ++ parts.2 ++ " does not exist in schema " ++ parts.1)
  else
    match fs.tableConfig confPath with
    | none => Except.error "failed to parse table configuration"
    | some (n, flds) =>
        Except.ok { tableName := n, fields := flds, schemaPath := schemaPath }

/-- `Table.GetAllRecords` of Table.go: when the table data file does not
exist the function returns the EMPTY list and no error; otherwise the file
is read and decoded chunk by chunk. -/
def getAllRecords (fs : FSModel) (t : Table) : Res (List Record) :=
  let tablePath := t.schemaPath ++ "/" ++ t.tableName ++ ".htdb"
  if fs.pathExists tablePath = false then Res.ok []
  else
    match fs.fileBytes tablePath with
    | none => Res.err "failed to read table file"
    | some data => decodeChunks data t.fields

/-- Does the record carry a value for the sort field? -/
def hasSortField (field : String) (r : Record) : Bool :=
  (alistGet r.fieldsData field).isSome

/-- The implicit primary-key field prepended by table creation. -/
def idField : Field := { name := "id", type := "timeID", length := 8 }

/-- An 8-byte int field named `n` (spec scenario 6). -/
def nField : Field := { name := "n", type := "int", length := 8 }

/-- Field list of a table with one int column `n`. -/
def fieldsInt : List Field := [idField, nField]

/-- An 8-byte int field named `val` (spec scenario 2). -/
def valField : Field := { name := "val", type := "int", length := 8 }

/-- Field list of a table with one int column `val`. -/
def fieldsVal : List Field := [idField, valField]

/-- An 8-byte float field named `x`. -/
def xField : Field := { name := "x", type := "float", length := 8 }

/-- Field list of a table with one float column `x`. -/
def fieldsFloat : List Field := [idField, xField]

/-- A 128-byte ref field named `body` (spec scenario 5). -/
def bodyField : Field := { name := "body", type := "ref", length := 128 }

/-- Field list of a table with one ref column `body`. -/
def fieldsRef : List Field := [idField, bodyField]

/-- Metadata of a committed, current record. -/
def committedMeta : RecordMetadata :=
  { isCurrent := true, isDeleted := false, isLocked := false,
    transactionId := 0 }

/-- A committed record with one int column, as a record read back from the
table file looks (numeric values deserialize as Go `int64`). -/
def diskIntRecord (fieldName : String) (id v : ℤ) : Record :=
  { id := id
    metadata := committedMeta
    fieldsData := [("id", Value.vInt64 id), (fieldName, Value.vInt64 v)]
    fieldsMeta := [("id", { isNull := false }), (fieldName, { isNull := false })]
    refOffsets := [] }

/-- A freshly inserted record with one int column, as it sits in memory
when the table file is written (user data carries the Go type `int`). -/
def memIntRecord (fieldName : String) (id v : ℤ) : Record :=
  { id := id
    metadata := committedMeta
    fieldsData := [("id", Value.vInt64 id), (fieldName, Value.vInt v)]
    fieldsMeta := [("id", { isNull := false }), (fieldName, { isNull := false })]
    refOffsets := [] }

/-- The committed version of scenario 2's first insert (`{val: 1}`), as
read back from the table file before the update commits. -/
def c1Old : Record := diskIntRecord "val" 1 1

/-- The table state after scenario 2 — insert `{val:1}` then
`stage_update({val:2})` then commit — as computed by `Transaction.Commit`:
the staged clone (fresh id 2, transaction 1) is committed over the loaded
table contents `[c1Old]`. -/
def c1Committed : List Record :=
  match stageUpdate fieldsVal "t" c1Old [("val", Value.vInt 2)] 1 2 [] with
  | Res.ok st => commitTable [c1Old] [st.2.1]
  | _ => []

/-- A record of the ref table as read back from the table file: only the
id datum and the ref offsets are populated. -/
def refDiskRecord (id : ℤ) (current : Bool) (start finish : ℤ) : Record :=
  { id := id
    metadata := { committedMeta with isCurrent := current }
    fieldsData := [("id", Value.vInt64 id)]
    fieldsMeta := [("id", { isNull := false }), ("body", { isNull := false })]
    refOffsets := [("body", (start, finish))] }

/-- The sidecar bytes after inserting the payloads `aaa`, `bbb`, `ccc`. -/
def c2RefData : List ℕ := strBytes "aaabbbccc"

/-- The pre-cleanup table contents of spec scenario 5 in the state the
specification intends before compaction: only the second record (offsets
`[3,6)`, payload `bbb`) is still current. -/
def c2Records : List Record :=
  [refDiskRecord 1 false 0 3, refDiskRecord 2 true 3 6, refDiskRecord 3 false 6 9]

/-- Running one cleanup cycle of scenario 5. -/
def c2Cleanup : Res (Option (List ℕ × List ℕ × List Record)) :=
  cleanupTable fieldsRef "body" c2Records c2RefData

/-- (sidecar length, the surviving record's ref offsets as READ BACK from
the table file that cleanup wrote).  The claim expects `(3, some (0, 3))`. -/
def c2Observed : ℕ × Option (ℤ × ℤ) :=
  match c2Cleanup with
  | Res.ok (some (tableBytes, newRef, _)) =>
      (newRef.length,
        match decodeChunks tableBytes fieldsRef with
        | Res.ok [r] => alistGet r.refOffsets "body"
        | _ => none)
  | _ => (0, none)

/-- The rational 3/2 in lowest terms (the float literal 1.5, exactly
representable as a double). -/
def threeHalves : ℚ := ⟨3, 2, by decide, by decide⟩

/-- A committed float record holding `x = 1.5` (exactly representable as a
double). -/
def c3Record : Record :=
  { id := 1
    metadata := committedMeta
    fieldsData := [("id", Value.vInt64 1), ("x", Value.vFloat threeHalves)]
    fieldsMeta := [("id", { isNull := false }), ("x", { isNull := false })]
    refOffsets := [] }

/-- Encode then decode the float record and project the `x` column. -/
def c3Roundtrip : Res (Option Value) :=
  Res.bind (serializeRecord c3Record fieldsFloat) (fun bs =>
    Res.bind (deserializeRecord bs fieldsFloat) (fun r =>
      Res.ok (alistGet r.fieldsData "x")))

/-- The in-memory records of spec scenario 6 at the moment the table file
is written: `n = 3,1,4,1,5,9,2`, ids 1..7, all committed and current. -/
def c4Records : List Record :=
  [memIntRecord "n" 1 3, memIntRecord "n" 2 1, memIntRecord "n" 3 4,
   memIntRecord "n" 4 1, memIntRecord "n" 5 5, memIntRecord "n" 6 9,
   memIntRecord "n" 7 2]

/-- Scenario 6 end to end: write the table file, read it back, and run
`select(t).where("n", ">=", 2).sort("n", true).limit(3).get_all()`,
projecting the `n` column of the result.  The result is independent of
`longSort` (the filtered list the query sorts is far below 13 records),
and the claim theorem quantifies over it. -/
def c4Pipeline
    (longSort : (Record → Record → Bool) → List Record → List Record) :
    Res (List (Option Value)) :=
  Res.bind
    (c4Records.foldr
      (fun r acc =>
        Res.bind (serializeRecord r fieldsInt) (fun bs =>
          Res.bind acc (fun rest => Res.ok (bs ++ rest))))
      (Res.ok []))
    (fun tableBytes =>
      Res.bind (decodeChunks tableBytes fieldsInt) (fun rs =>
        Res.ok
          ((queryGetAll longSort rs [⟨"n", ">=", Value.vInt 2⟩] "n" true 3).map
            (fun r => alistGet r.fieldsData "n"))))

/-- A staged insert into the int table (id 5, transaction 1,
data `{n: 42}`). -/
def c6Insert : Res (Record × List (String × List ℕ)) :=
  stageInsert fieldsInt 5 1 [("n", Value.vInt 42)] []

/-- The `IsCurrent` flag of the record staged by `c6Insert`. -/
def c6InsertCurrent : Bool :=
  match c6Insert with
  | Res.ok (r, _) => r.metadata.isCurrent
  | _ => false

/-- Two distinct records with the same `int64` sort key `n = 7`, in their
table-file order. -/
def c8A : Record := diskIntRecord "n" 1 7

/-- Second record with the same sort key as `c8A`. -/
def c8B : Record := diskIntRecord "n" 2 7

/-- The file system of a data root `/data` holding only the default schema
`testSchema` with one table `users` — no schema or table named by a bare
lookup is ever created by the caller. -/
def c9Fs : FSModel :=
  { pathExists := fun p =>
      p = "/data/testSchema" ∨ p = "/data/testSchema/users.conf.htdb"
    tableConfig := fun p =>
      if p = "/data/testSchema/users.conf.htdb" then some ("users", fieldsInt)
      else none
    fileBytes := fun _ => none }

/-- The table `c9Fs` resolves a bare (unqualified) name to. -/
def c9Table : Table :=
  { tableName := "users", fields := fieldsInt,
    schemaPath := "/data/testSchema" }

/-- A file system on which no path exists, and a table whose data file was
therefore never written. -/
def c10Fs : FSModel :=
  { pathExists := fun _ => false
    tableConfig := fun _ => none
    fileBytes := fun _ => none }

/-- A hydrated table whose data file does not exist on `c10Fs`. -/
def c10Table : Table :=
  { tableName := "t", fields := fieldsInt, schemaPath := "/data/s" }

/-- The output of a concrete staged update of `c1Old` (transaction 1,
fresh id 2). -/
def c6UpdateOut : Record × Record × List (String × List ℕ) :=
  match stageUpdate fieldsVal "t" c1Old [("val", Value.vInt 2)] 1 2 [] with
  | Res.ok out => out
  | _ => (c1Old, c1Old, [])

/-- The output of a concrete staged delete of `c1Old` (transaction 1,
fresh id 2). -/
def c6DeleteOut : Record × Record :=
  match stageDelete c1Old 1 2 with
  | Res.ok out => out
  | _ => (c1Old, c1Old)

/-- The output of the concrete staged insert `c6Insert`. -/
def c6InsertOut : Record × List (String × List ℕ) :=
  match c6Insert with
  | Res.ok out => out
  | _ => (c1Old, [])

/-- A record currently locked by transaction 7. -/
def c7Locked : Record :=
  { id := 1
    metadata :=
      { isCurrent := true, isDeleted := false, isLocked := true,
        transactionId := 7 }
    fieldsData := [("id", Value.vInt64 1)]
    fieldsMeta := [("id", { isNull := false })]
    refOffsets := [] }

/-- Claim C1: after committing a staged update of a committed record, the
table contains the old and the new version and exactly one of them is
current — REFUTED on the code.  `Transaction.Commit` demotes an existing
record only when its `FieldsData["id"]` equals the staged record's, but
`Record.Clone` gives every staged update a fresh id, so the demotion never
fires: after scenario 2 (insert `{val:1}`, update to `{val:2}`, commit)
both versions are `is_current=true`, and the demoted-to-false step fires
for no staged record. -/
theorem c1_commit_never_demotes :
    c1Committed.map (fun r => (alistGet r.fieldsData "val", r.metadata.isCurrent)) =
      [(some (Value.vInt64 1), true), (some (Value.vInt 2), true)] ∧
    (c1Committed.filter (fun r => r.metadata.isCurrent)).length = 2 := by
  constructor
  · rfl
  · rfl

/-- Claim C2: after one cleanup cycle the sidecar holds exactly the bytes
still referenced and the surviving record's offsets, as read back from the
rewritten table file, address the same payload (`[0,3)` reading `bbb`) —
REFUTED on the code.  The rewritten sidecar does have length 3, but
`cleanupTable` serializes the retained records BEFORE `cleanupRefField`
rewrites their offsets, and `Record.Serialize` writes zeros for a ref cell
whose `FieldsData` entry is absent (which is always the case for records
that came from `DeserializeRecord`), so the offsets read back from the
rewritten table file are `(0, 0)`, not `(0, 3)` — they address the empty
byte string, not `bbb`. -/
theorem c2_cleanup_loses_ref_offsets :
    c2Observed = (3, some ((0 : ℤ), (0 : ℤ))) ∧
    c2Observed.2 ≠ some ((0 : ℤ), (3 : ℤ)) := by
  constructor
  · rfl
  · decide

/-- Claim C3: the codec stores a float field's exact IEEE-754 bit pattern
and decoding reverses it, so floats round-trip — REFUTED on the code.
`Record.Serialize` converts the float through `uint64(v)` (numeric
truncation: 1.5 becomes the integer 1, not the bit pattern
0x3FF8000000000000 = 4609434218613702656) and `DeserializeRecord` converts
back through `float64(bits)`, so `x = 1.5` decodes as `1`. -/
theorem c3_float_roundtrip_lossy :
    threeHalves = 3 / 2 ∧
    c3Roundtrip = Res.ok (some (Value.vFloat 1)) ∧
    floatU64 threeHalves = 1 ∧
    Value.vFloat 1 ≠ Value.vFloat threeHalves := by
  refine ⟨?_, by decide, by decide, by decide⟩
  rw [threeHalves, Rat.mk'_eq_divInt]
  norm_num [Rat.divInt_eq_div]

/-- Claim C4: scenario 6's query returns the records with `n = 2, 3, 4`
because int and float are mutually coercible — REFUTED on the code.
Numbers read back from the table file carry the Go type `int64`, which the
type switches of `equals` and `greaterThan` (cases `int` and `float64`
only) never match, so every comparison on a deserialized record is false
and the query returns NO records. -/
theorem c4_query_rejects_deserialized_ints :
    (∀ longSort : (Record → Record → Bool) → List Record → List Record,
      c4Pipeline longSort = Res.ok []) ∧
    greaterThanOrEqual (Value.vInt64 3) (Value.vInt 2) = false := by
  constructor
  · intro longSort
    rfl
  · rfl

/-- Claim C5: decoding any buffer shorter than the record size fails with
an error rather than crashing — REFUTED on the code.  The only length
guard in `DeserializeRecord` is `len(data) < 12`; a 12-byte buffer for a
table whose record size is 21 passes the guard and the first field read
indexes past the end of the buffer, which panics in Go. -/
theorem c5_short_buffer_panics :
    deserializeRecord (List.replicate 12 0) fieldsInt = Res.crashed ∧
    recordSize fieldsInt = 21 ∧ ¬(12 < 12) := by
  refine ⟨rfl, rfl, ?_⟩
  decide

/-- Claim C6 counterexample: a record produced by `stage_insert` has
`is_current = TRUE` while the transaction is still active, refuting "every
staged record has is_current=false until commit": `StageInsert` builds the
record with `NewRecord`, whose default metadata is `IsCurrent=true`, and
only overwrites `IsLocked` and `TransactionID`. -/
theorem c6_insert_staged_is_current : c6InsertCurrent = true := by
  rfl

/-- Claim C9: a table name without a `":"` separator must fail with an
unqualified-name error — REFUTED on the code.  `GetTable` silently
substitutes the hardcoded default schema `testSchema` for a bare name and
resolves the table there: on a data root holding
`testSchema/users.conf.htdb`, looking up the bare name `users`
SUCCEEDS. -/
theorem c9_bare_name_resolves_default_schema :
    getTable c9Fs "users" "/data" = Except.ok c9Table ∧
    splitTableName "users" = ("testSchema", "users") := by
  constructor
  · rfl
  · rfl

/-- Claim C10: reading all records of a table whose data file does not
exist returns the empty list and no error — CONFIRMED.
`Table.GetAllRecords` checks `os.Stat` and returns an empty slice with a
nil error when the file is missing. -/
theorem c10_missing_file_reads_empty (fs : FSModel) (t : Table)
    (h : fs.pathExists (t.schemaPath ++ "/" ++ t.tableName ++ ".htdb") = false) :
    getAllRecords fs t = Res.ok [] := by
  unfold getAllRecords
  simp [h]

/-- Witness for C10 at a concrete file system and table. -/
theorem c10_missing_file_reads_empty_witness :
    c10Fs.pathExists (c10Table.schemaPath ++ "/" ++ c10Table.tableName ++ ".htdb") = false ∧
    getAllRecords c10Fs c10Table = Res.ok [] :=
  ⟨rfl, c10_missing_file_reads_empty c10Fs c10Table rfl⟩

/-- Claim C7: at most one transaction holds a record's lock — CONFIRMED.
`Record.Lock(tx_id)` succeeds exactly when the record is unlocked or
already locked by the same transaction, and then records `tx_id` as the
single holder; otherwise it fails naming the holding transaction's id and
leaves the record (metadata and all fields) unchanged. -/
theorem c7_lock_exclusive (r : Record) (tx : ℕ) :
    (¬(r.metadata.isLocked = true ∧ r.metadata.transactionId ≠ tx) →
      r.lock tx =
        ({ r with
            metadata :=
              { r.metadata with isLocked := true, transactionId := tx } },
         none)) ∧
    (r.metadata.isLocked = true → r.metadata.transactionId ≠ tx →
      r.lock tx = (r, some r.metadata.transactionId)) := by
  constructor
  · intro h
    simp only [Record.lock, if_neg h]
  · intro h1 h2
    simp only [Record.lock, if_pos (And.intro h1 h2)]

/-- Witness for C7: transaction 9 fails to lock a record held by
transaction 7 (the record is returned unchanged with the holder's id), and
succeeds on an unlocked record. -/
theorem c7_lock_exclusive_witness :
    Record.lock c7Locked 9 = (c7Locked, some 7) ∧
    Record.lock c1Old 9 =
      ({ c1Old with
          metadata :=
            { c1Old.metadata with isLocked := true, transactionId := 9 } },
       none) :=
  ⟨(c7_lock_exclusive c7Locked 9).2 rfl (by decide),
   (c7_lock_exclusive c1Old 9).1 (by decide)⟩

/-- Computation rule of `Res.bind` on a normal value. -/
theorem res_bind_ok {α β : Type} (a : α) (f : α → Res β) :
    Res.bind (Res.ok a) f = f a := rfl

/-- `Record.Clone` never yields a current record: the clone's metadata is
built with `IsCurrent=false`. -/
theorem clone_not_current (r : Record) (tx : ℕ) (newId : ℤ) (st : Record)
    (h : Record.clone r tx newId = Except.ok st) :
    st.metadata.isCurrent = false ∧ st.metadata.isLocked = true ∧
      st.metadata.transactionId = tx := by
  unfold Record.clone at h
  split at h
  · simp at h
  · cases h
    exact ⟨rfl, rfl, rfl⟩

/-- `writeRefData` only rebinds ref offsets; the metadata is untouched. -/
theorem writeRefData_metadata (r : Record) (f v : String) (sc : List ℕ) :
    (writeRefData r f v sc).1.metadata = r.metadata := rfl

/-- One `applyUpdate` step never touches the staged record's metadata. -/
theorem applyUpdate_metadata (fields : List Field) (tn : String)
    (st : Record × List (String × List ℕ)) (f : String) (v : Value)
    (out : Record × List (String × List ℕ))
    (h : applyUpdate fields tn st f v = Res.ok out) :
    out.1.metadata = st.1.metadata := by
  unfold applyUpdate at h
  split at h
  · simp at h
  · split at h
    · split at h
      · cases h; rfl
      · cases h; rfl
      · simp at h
    · split at h
      · cases h; rfl
      · cases h; rfl

/-- Folding `applyUpdate` over an error accumulator stays an error. -/
theorem foldl_applyUpdate_err (fields : List Field) (tn : String)
    (l : List (String × Value)) (m : String) :
    l.foldl
      (fun acc kv => Res.bind acc (fun st => applyUpdate fields tn st kv.1 kv.2))
      (Res.err m) = Res.err m := by
  induction l with
  | nil => rfl
  | cons kv rest ih => exact ih

/-- Folding `applyUpdate` over a crashed accumulator stays crashed. -/
theorem foldl_applyUpdate_crashed (fields : List Field) (tn : String)
    (l : List (String × Value)) :
    l.foldl
      (fun acc kv => Res.bind acc (fun st => applyUpdate fields tn st kv.1 kv.2))
      Res.crashed = Res.crashed := by
  induction l with
  | nil => rfl
  | cons kv rest ih => exact ih

/-- The whole update fold never touches the staged record's metadata. -/
theorem foldl_applyUpdate_metadata (fields : List Field) (tn : String) :
    ∀ (l : List (String × Value)) (st0 out : Record × List (String × List ℕ)),
      l.foldl
        (fun acc kv =>
          Res.bind acc (fun st => applyUpdate fields tn st kv.1 kv.2))
        (Res.ok st0) = Res.ok out →
      out.1.metadata = st0.1.metadata := by
  intro l
  induction l with
  | nil =>
      intro st0 out h
      cases h
      rfl
  | cons kv rest ih =>
      intro st0 out h
      rw [List.foldl_cons, res_bind_ok] at h
      cases happ : applyUpdate fields tn st0 kv.1 kv.2 with
      | ok st1 =>
          rw [happ] at h
          exact (ih st1 out h).trans
            (applyUpdate_metadata fields tn st0 kv.1 kv.2 st1 happ)
      | err m =>
          rw [happ, foldl_applyUpdate_err] at h
          simp at h
      | crashed =>
          rw [happ, foldl_applyUpdate_crashed] at h
          simp at h

/-- The data fold of `NewRecord` only fills `FieldsData` and `FieldsMeta`;
the metadata stays the default
`IsCurrent=true, IsDeleted=false, IsLocked=false, TransactionID=0`. -/
theorem newRecord_foldl_metadata (data : List (String × Value)) :
    ∀ r : Record,
      (data.foldl
        (fun r kv =>
          { r with
            fieldsData := alistSet r.fieldsData kv.1 kv.2
            fieldsMeta :=
              alistSet r.fieldsMeta kv.1 { isNull := kv.2 = Value.vNil } })
        r).metadata = r.metadata := by
  induction data with
  | nil => intro r; rfl
  | cons kv rest ih =>
      intro r
      rw [List.foldl_cons]
      exact ih _

theorem newRecord_metadata (id : ℤ) (data : List (String × Value)) :
    (newRecord id data).metadata =
      { isCurrent := true, isDeleted := false, isLocked := false,
        transactionId := 0 } := by
  unfold newRecord
  exact newRecord_foldl_metadata data _

/-- One insert-staging ref step never touches the record's metadata. -/
theorem stageInsertRefStep_metadata (data : List (String × Value))
    (rs out : Record × List (String × List ℕ)) (f : Field)
    (h : stageInsertRefStep data rs f = Res.ok out) :
    out.1.metadata = rs.1.metadata := by
  unfold stageInsertRefStep at h
  split at h
  · split at h
    · cases h; rfl
    · cases h; rfl
    · cases h; rfl
    · simp at h
  · cases h; rfl

/-- Folding the insert-staging ref step over an error stays an error. -/
theorem foldl_stageInsertRefStep_err (data : List (String × Value))
    (l : List Field) (m : String) :
    l.foldl (fun acc f => Res.bind acc (fun rs => stageInsertRefStep data rs f))
      (Res.err m) = Res.err m := by
  induction l with
  | nil => rfl
  | cons f rest ih => exact ih

/-- Folding the insert-staging ref step over a crash stays a crash. -/
theorem foldl_stageInsertRefStep_crashed (data : List (String × Value))
    (l : List Field) :
    l.foldl (fun acc f => Res.bind acc (fun rs => stageInsertRefStep data rs f))
      Res.crashed = Res.crashed := by
  induction l with
  | nil => rfl
  | cons f rest ih => exact ih

/-- The whole insert-staging ref fold never touches the metadata. -/
theorem foldl_stageInsertRefStep_metadata (data : List (String × Value)) :
    ∀ (l : List Field) (rs0 out : Record × List (String × List ℕ)),
      l.foldl (fun acc f => Res.bind acc (fun rs => stageInsertRefStep data rs f))
        (Res.ok rs0) = Res.ok out →
      out.1.metadata = rs0.1.metadata := by
  intro l
  induction l with
  | nil =>
      intro rs0 out h
      cases h
      rfl
  | cons f rest ih =>
      intro rs0 out h
      rw [List.foldl_cons, res_bind_ok] at h
      cases hstep : stageInsertRefStep data rs0 f with
      | ok rs1 =>
          rw [hstep] at h
          exact (ih rs1 out h).trans
            (stageInsertRefStep_metadata data rs0 rs1 f hstep)
      | err m =>
          rw [hstep, foldl_stageInsertRefStep_err] at h
          simp at h
      | crashed =>
          rw [hstep, foldl_stageInsertRefStep_crashed] at h
          simp at h

/-- Claim C6 (amended): records staged by `stage_update` and
`stage_delete` are clones and have `is_current=false` until commit; a
record staged by `stage_insert`, however, keeps `NewRecord`'s default
`is_current=TRUE` (together with `is_locked=true` and the staging
transaction's id) while the transaction is active — the source only
overrides the lock fields. -/
theorem c6_staged_record_flags :
    (∀ (fields : List Field) (tn : String) (r : Record)
        (updates : List (String × Value)) (tx : ℕ) (newId : ℤ)
        (sc : List (String × List ℕ))
        (out : Record × Record × List (String × List ℕ)),
        stageUpdate fields tn r updates tx newId sc = Res.ok out →
          out.2.1.metadata.isCurrent = false) ∧
    (∀ (r : Record) (tx : ℕ) (newId : ℤ) (out : Record × Record),
        stageDelete r tx newId = Res.ok out →
          out.2.metadata.isCurrent = false) ∧
    (∀ (fields : List Field) (newId : ℤ) (tx : ℕ)
        (data : List (String × Value)) (sc : List (String × List ℕ))
        (out : Record × List (String × List ℕ)),
        stageInsert fields newId tx data sc = Res.ok out →
          out.1.metadata.isCurrent = true ∧ out.1.metadata.isLocked = true ∧
            out.1.metadata.transactionId = tx) := by
  refine ⟨?_, ?_, ?_⟩
  · intro fields tn r updates tx newId sc out h
    unfold stageUpdate at h
    rcases hL : Record.lock r tx with ⟨locked, lockErr⟩
    rw [hL] at h
    cases lockErr with
    | some holder => simp at h
    | none =>
        dsimp only at h
        cases hC : Record.clone locked tx newId with
        | error holder =>
            rw [hC] at h
            simp at h
        | ok staging =>
            rw [hC] at h
            dsimp only at h
            cases hF : updates.foldl
                (fun acc kv =>
                  Res.bind acc (fun st => applyUpdate fields tn st kv.1 kv.2))
                (Res.ok (staging, sc)) with
            | ok stF =>
                rw [hF, res_bind_ok] at h
                cases h
                have h1 := foldl_applyUpdate_metadata fields tn updates
                  (staging, sc) stF hF
                have h2 := (clone_not_current locked tx newId staging hC).1
                simpa [h1] using h2
            | err m =>
                rw [hF] at h
                simp [Res.bind] at h
            | crashed =>
                rw [hF] at h
                simp [Res.bind] at h
  · intro r tx newId out h
    unfold stageDelete at h
    rcases hL : Record.lock r tx with ⟨locked, lockErr⟩
    rw [hL] at h
    cases lockErr with
    | some holder => simp at h
    | none =>
        dsimp only at h
        cases hC : Record.clone locked tx newId with
        | error holder =>
            rw [hC] at h
            simp at h
        | ok staging =>
            rw [hC] at h
            cases h
            exact (clone_not_current locked tx newId staging hC).1
  · intro fields newId tx data sc out h
    unfold stageInsert at h
    have hmeta := foldl_stageInsertRefStep_metadata data fields _ out h
    rw [hmeta]
    have hnew := newRecord_metadata newId data
    simp [hnew]

/-- Witness for C6 (amended) at concrete stagings: updating and deleting
`c1Old` stages non-current clones, while the staged insert of `c6Insert`
is current with the lock held by transaction 1. -/
theorem c6_staged_record_flags_witness :
    stageUpdate fieldsVal "t" c1Old [("val", Value.vInt 2)] 1 2 [] =
      Res.ok c6UpdateOut ∧
    c6UpdateOut.2.1.metadata.isCurrent = false ∧
    stageDelete c1Old 1 2 = Res.ok c6DeleteOut ∧
    c6DeleteOut.2.metadata.isCurrent = false ∧
    stageInsert fieldsInt 5 1 [("n", Value.vInt 42)] [] = Res.ok c6InsertOut ∧
    c6InsertOut.1.metadata.isCurrent = true :=
  ⟨rfl,
   c6_staged_record_flags.1 fieldsVal "t" c1Old [("val", Value.vInt 2)] 1 2 []
     c6UpdateOut rfl,
   rfl,
   c6_staged_record_flags.2.1 c1Old 1 2 c6DeleteOut rfl,
   rfl,
   (c6_staged_record_flags.2.2 fieldsInt 5 1 [("n", Value.vInt 42)] []
     c6InsertOut rfl).1⟩

/-- A record missing the sort field is never ordered before anything: the
comparison closure returns false before the direction inversion. -/
theorem sortLess_of_missing (field : String) (asc : Bool) (x e : Record)
    (hx : hasSortField field x = false) : sortLess field asc x e = false := by
  unfold hasSortField at hx
  unfold sortLess
  cases h1 : alistGet x.fieldsData field with
  | some v => rw [h1] at hx; simp at hx
  | none => cases h2 : alistGet e.fieldsData field <;> simp [h1, h2]

/-- A record with the sort field is ordered before one without it, in both
directions. -/
theorem sortLess_present_missing (field : String) (asc : Bool)
    (x e : Record) (hx : hasSortField field x = true)
    (he : hasSortField field e = false) : sortLess field asc x e = true := by
  unfold hasSortField at hx he
  unfold sortLess
  cases h1 : alistGet x.fieldsData field with
  | none => rw [h1] at hx; simp at hx
  | some v =>
      cases h2 : alistGet e.fieldsData field with
      | some w => rw [h2] at he; simp at he
      | none => simp [h1, h2]

/-- `strLtChars` is irreflexive. -/
theorem strLtChars_irrefl : ∀ cs : List Char, strLtChars cs cs = false := by
  intro cs
  induction cs with
  | nil => rfl
  | cons c rest ih => simp [strLtChars, ih]

/-- `strLt` is irreflexive. -/
theorem strLt_irrefl (s : String) : strLt s s = false :=
  strLtChars_irrefl s.data

/-- Two records with the same sort key are never strictly ordered in the
ascending direction. -/
theorem sortLess_asc_eq_key_false (field : String) (x e : Record)
    (h : alistGet x.fieldsData field = alistGet e.fieldsData field) :
    sortLess field true x e = false := by
  unfold sortLess
  cases h1 : alistGet x.fieldsData field with
  | none =>
      rw [h1] at h
      rw [← h]
  | some v =>
      rw [h1] at h
      rw [← h]
      cases v with
      | vStr s => simp [strLt_irrefl]
      | vInt n => simp
      | vFloat q => simp
      | vNil => simp [strLt_irrefl]
      | vInt64 n => simp [strLt_irrefl]
      | vBool b => simp [strLt_irrefl]

/-- Membership in a bubbled list. -/
theorem mem_bubble {α : Type} (less : α → α → Bool) (x : α) (l : List α)
    (b : α) (hb : b ∈ bubble less x l) : b = x ∨ b ∈ l := by
  induction l with
  | nil =>
      simp [bubble] at hb
      exact Or.inl hb
  | cons e rest ih =>
      by_cases hle : less x e = true
      · rw [bubble, if_pos hle] at hb
        rcases List.mem_cons.mp hb with rfl | hb2
        · exact Or.inr (List.mem_cons_self _ _)
        · rcases ih hb2 with rfl | hb3
          · exact Or.inl rfl
          · exact Or.inr (List.mem_cons_of_mem _ hb3)
      · rw [bubble, if_neg hle] at hb
        rcases List.mem_cons.mp hb with rfl | hb2
        · exact Or.inl rfl
        · exact Or.inr hb2

/-- Bubbling preserves the reversed missing-last invariant: in the
reversed accumulator, whenever a record without the sort key appears
before another record, that other record has no sort key either. -/
theorem pairwise_bubble (field : String) (less : Record → Record → Bool)
    (hmiss : ∀ x e, hasSortField field x = false → less x e = false)
    (hpres : ∀ x e, hasSortField field x = true →
      hasSortField field e = false → less x e = true)
    (x : Record) (acc : List Record)
    (hacc : List.Pairwise
      (fun a b => hasSortField field b = false → hasSortField field a = false)
      acc) :
    List.Pairwise
      (fun a b => hasSortField field b = false → hasSortField field a = false)
      (bubble less x acc) := by
  induction acc with
  | nil => simp [bubble]
  | cons e rest ih =>
      rcases List.pairwise_cons.mp hacc with ⟨he, hrest⟩
      by_cases hle : less x e = true
      · rw [bubble, if_pos hle]
        refine List.pairwise_cons.mpr ⟨?_, ih hrest⟩
        intro b hb
        rcases mem_bubble less x rest b hb with rfl | hbr
        · intro hbx
          exact absurd (hmiss b e hbx) (by simp [hle])
        · exact he b hbr
      · rw [bubble, if_neg hle]
        refine List.pairwise_cons.mpr ⟨?_, hacc⟩
        intro b hb hbmiss
        by_cases hx : hasSortField field x = true
        · exfalso
          rcases List.mem_cons.mp hb with rfl | hbr
          · exact absurd (hpres x b hx hbmiss) (by simpa using hle)
          · have hemiss : hasSortField field e = false := he b hbr hbmiss
            exact absurd (hpres x e hx hemiss) (by simpa using hle)
        · simpa using hx

/-- The whole bubbling fold preserves the reversed missing-last
invariant. -/
theorem pairwise_foldl_bubble (field : String) (less : Record → Record → Bool)
    (hmiss : ∀ x e, hasSortField field x = false → less x e = false)
    (hpres : ∀ x e, hasSortField field x = true →
      hasSortField field e = false → less x e = true) :
    ∀ (l acc : List Record),
      List.Pairwise
        (fun a b => hasSortField field b = false → hasSortField field a = false)
        acc →
      List.Pairwise
        (fun a b => hasSortField field b = false → hasSortField field a = false)
        (l.foldl (fun a x => bubble less x a) acc) := by
  intro l
  induction l with
  | nil => intro acc hacc; exact hacc
  | cons x rest ih =>
      intro acc hacc
      rw [List.foldl_cons]
      exact ih _ (pairwise_bubble field less hmiss hpres x acc hacc)

/-- When the new element is accepted by `p` and never strictly precedes a
`p`-element, bubbling prepends it to the `p`-filtered accumulator. -/
theorem bubble_filter_pos {α : Type} (less : α → α → Bool) (p : α → Bool)
    (x : α) (hx : p x = true) (hless : ∀ e, p e = true → less x e = false) :
    ∀ acc : List α, (bubble less x acc).filter p = x :: acc.filter p := by
  intro acc
  induction acc with
  | nil => simp [bubble, hx]
  | cons e rest ih =>
      by_cases hle : less x e = true
      · have hpe : p e = false := by
          by_cases hp : p e = true
          · exact absurd (hless e hp) (by simp [hle])
          · simpa using hp
        rw [bubble, if_pos hle]
        simp [List.filter_cons, hpe, ih]
      · rw [bubble, if_neg hle]
        simp [List.filter_cons, hx]

/-- When the new element is rejected by `p`, bubbling leaves the
`p`-filtered accumulator unchanged. -/
theorem bubble_filter_neg {α : Type} (less : α → α → Bool) (p : α → Bool)
    (x : α) (hx : p x = false) :
    ∀ acc : List α, (bubble less x acc).filter p = acc.filter p := by
  intro acc
  induction acc with
  | nil => simp [bubble, hx]
  | cons e rest ih =>
      by_cases hle : less x e = true
      · rw [bubble, if_pos hle]
        simp [List.filter_cons, ih]
      · rw [bubble, if_neg hle]
        simp [List.filter_cons, hx]

/-- The bubbling fold accumulates the `p`-elements in reverse input order
in front of the accumulator's `p`-elements, provided `p`-elements never
strictly precede each other. -/
theorem foldl_bubble_filter {α : Type} (less : α → α → Bool) (p : α → Bool)
    (hless : ∀ x e, p x = true → p e = true → less x e = false) :
    ∀ (l acc : List α),
      ((l.foldl (fun a y => bubble less y a) acc).filter p) =
        (l.filter p).reverse ++ acc.filter p := by
  intro l
  induction l with
  | nil => intro acc; simp
  | cons x rest ih =>
      intro acc
      rw [List.foldl_cons]
      rw [ih (bubble less x acc)]
      by_cases hx : p x = true
      · rw [bubble_filter_pos less p x hx (fun e he => hless x e hx he) acc]
        simp [List.filter_cons, hx]
      · have hx' : p x = false := by simpa using hx
        rw [bubble_filter_neg less p x hx' acc]
        simp [List.filter_cons, hx']

/-- Claim C8 counterexample: the sort is NOT stable — two distinct records
with the same `int64` sort key `n = 7` come back in REVERSED order when
sorted descending.  The 2-element slice is within the insertion-sort
regime of `sort.Slice` (at most 12 elements), where the model is exact:
the descending comparator `!result` reports `true` on equal keys, so the
insertion swaps them.  (`anyLongSort` is never reached at this length, so
its choice is irrelevant.) -/
theorem c8_descending_swaps_equal_keys :
    sortRecords anyLongSort [c8A, c8B] "n" false = [c8B, c8A] ∧
    ([c8A, c8B] : List Record).length ≤ 12 ∧
    c8A ≠ c8B ∧
    alistGet c8A.fieldsData "n" = alistGet c8B.fieldsData "n" := by
  refine ⟨by decide, by decide, by decide, by decide⟩

/-- Claim C8 (amended): on every list of at most 12 current records — the
regime in which `sort.Slice` runs insertion sort; on longer slices it runs
an unstable quicksort whose output under this comparator is unspecified —
every record missing the sort field is placed after all records that carry
it in both directions, and the ASCENDING sort is stable (records with any
given key value keep their original relative order); the descending sort
however is not stable even there — it reverses the order of equal-key
neighbours (see the counterexample).  The statement quantifies over the
unmodelled long-slice branch `longSort`, so it assumes nothing about it. -/
theorem c8_sort_missing_last_and_ascending_stable :
    ∀ (longSort : (Record → Record → Bool) → List Record → List Record)
      (l : List Record) (field : String),
      l.length ≤ 12 →
      (∀ asc : Bool,
        List.Pairwise
          (fun a b =>
            hasSortField field a = false → hasSortField field b = false)
          (sortRecords longSort l field asc)) ∧
      (∀ k : Option Value,
        (sortRecords longSort l field true).filter
          (fun r => alistGet r.fieldsData field = k) =
        l.filter (fun r => alistGet r.fieldsData field = k)) := by
  intro longSort l field hlen
  have hdispatch : ∀ asc : Bool,
      sortRecords longSort l field asc =
        insertionSortGo (sortLess field asc) l := by
    intro asc
    unfold sortRecords
    rw [if_pos hlen]
  constructor
  · intro asc
    rw [hdispatch asc]
    unfold insertionSortGo
    rw [List.pairwise_reverse]
    exact pairwise_foldl_bubble field (sortLess field asc)
      (fun x e hx => sortLess_of_missing field asc x e hx)
      (fun x e hx he => sortLess_present_missing field asc x e hx he)
      l [] (List.Pairwise.nil)
  · intro k
    rw [hdispatch true]
    unfold insertionSortGo
    rw [List.filter_reverse]
    rw [foldl_bubble_filter (sortLess field true)
      (fun r => alistGet r.fieldsData field = k)
      (fun x e hx he => by
        refine sortLess_asc_eq_key_false field x e ?_
        have hx' : alistGet x.fieldsData field = k := by simpa using hx
        have he' : alistGet e.fieldsData field = k := by simpa using he
        rw [hx', he'])
      l []]
    simp

/-- Witness for C8 (amended) on the concrete two-record table (length 2,
within the insertion-sort regime): sorted ascending, the equal-key records
keep their order and the missing-last invariant holds. -/
theorem c8_sort_witness :
    List.Pairwise
      (fun a b => hasSortField "n" a = false → hasSortField "n" b = false)
      (sortRecords anyLongSort [c8A, c8B] "n" true) ∧
    (sortRecords anyLongSort [c8A, c8B] "n" true).filter
      (fun r => alistGet r.fieldsData "n" = some (Value.vInt64 7)) =
      [c8A, c8B].filter
        (fun r => alistGet r.fieldsData "n" = some (Value.vInt64 7)) :=
  ⟨(c8_sort_missing_last_and_ascending_stable anyLongSort [c8A, c8B] "n"
      (by decide)).1 true,
   (c8_sort_missing_last_and_ascending_stable anyLongSort [c8A, c8B] "n"
      (by decide)).2 (some (Value.vInt64 7))⟩

end HartoDB
